import Mathlib

/-!
Verification of the conversation-graph engine of the llm-graph repository.

The definitions below are a shallow embedding of the TypeScript source:
* the data model of `ChatNode` / graph edges (src/types/chat.ts and the
  node/edge literals built in the useChatGraph hook),
* `getContextForNode`, the context resolver,
* the synchronous graph mutations performed by `onConnectEnd` (start a
  branch), `handleSend` (submit a pending prompt) and the input-node
  cancel callback,
* the reply write performed when the backend call settles,
* the keyboard navigation handler of the ChatGraph component,
* `serializeState` / `importState`, the persistence codec, modelled over
  a JavaScript-value type that captures JSON documents together with the
  `undefined` value produced by property access.

TypeScript field names that are Lean keywords are renamed (`type` on
nodes becomes `ntype`, on edges `etype`).  Callback fields
(`onSend`/`onCancel`) carry no data and are excluded from the model, as
are purely visual fields (`origin`, `measured`, handle metadata) that no
claim mentions.
-/

namespace LlmGraph

/-- Two-dimensional coordinate of a node (`position` in React Flow). -/
structure Position where
  x : Int
  y : Int
deriving DecidableEq

/-- The `data` payload of a chat node (src/types/chat.ts `ChatNodeData`,
without the `onSend`/`onCancel` callbacks, which hold no serializable
state). `isInput` and `label` are optional in the source. -/
structure ChatNodeData where
  role : String
  content : String
  timestamp : Nat
  isInput : Option Bool
  label : Option String
deriving DecidableEq

/-- A React Flow node as used by the hook: `ntype` is the node `type`
field, either "message" or "inputNode". -/
structure ChatNode where
  id : String
  ntype : String
  position : Position
  data : ChatNodeData
deriving DecidableEq

/-- A React Flow edge as created by the hook: `etype` is the edge `type`
field ("smoothstep"), `markerEnd` the marker type string when present. -/
structure GraphEdge where
  id : String
  source : String
  target : String
  etype : Option String
  markerEnd : Option String
deriving DecidableEq

/-- A role/content turn handed to the backend (src/types/chat.ts
`ChatMessage`). -/
structure ChatMessage where
  role : String
  content : String
deriving DecidableEq

/-- The graph snapshot: the `nodes` and `edges` state of the hook. -/
structure GraphState where
  nodes : List ChatNode
  edges : List GraphEdge
deriving DecidableEq

/-! ## Context resolver (`getContextForNode`) -/

/-- Loop body of `getContextForNode`: while the current id resolves to a
node, prepend its (role, content) when it is a "message" node, then step
to the source of the first edge whose target is the current id.  The
source loops unboundedly; `fuel` bounds the recursion in Lean and is
chosen large enough that it is never exhausted on the acyclic graphs the
store maintains. -/
def getCtxLoop (nodes : List ChatNode) (edges : List GraphEdge) :
    Nat → String → List ChatMessage → List ChatMessage
  | 0, _, history => history
  | fuel + 1, currentNodeId, history =>
    match nodes.find? (fun n => n.id == currentNodeId) with
    | none => history
    | some node =>
      let history' :=
        if node.ntype == "message" then
          { role := node.data.role, content := node.data.content } :: history
        else history
      match edges.find? (fun e => e.target == currentNodeId) with
      | none => history'
      | some parentEdge => getCtxLoop nodes edges fuel parentEdge.source history'

/-- The resolver `getContextForNode(nodeId, currentNodes, currentEdges)`
of the useChatGraph hook: walk ancestor edges from `nodeId` collecting the
message turns in root-to-node order. -/
def getContextForNode (nodeId : String) (currentNodes : List ChatNode)
    (currentEdges : List GraphEdge) : List ChatMessage :=
  getCtxLoop currentNodes currentEdges (currentNodes.length + 1) nodeId []

/-! ## Branch controller operations -/

/-- The `addEdge` helper of @xyflow/react as invoked by the hook: the edge is
dropped when source or target is empty or when an edge with the same
source and target already exists, otherwise it is appended.  (The hook
never sets `sourceHandle`/`targetHandle` on these edges, so the
duplicate check reduces to source/target.) -/
def addEdgeOp (e : GraphEdge) (edges : List GraphEdge) : List GraphEdge :=
  if e.source == "" || e.target == "" then edges
  else if edges.any (fun x => x.source == e.source && x.target == e.target) then edges
  else edges ++ [e]

/-- The root node built by `getInitialNodes` (its timestamp is
`Date.now()` at creation, passed in here). -/
def rootContent : String :=
  "Hello! I am your graph-based AI assistant. Drag from this node to start a new conversation branch."

def initialNode (ts : Nat) : ChatNode :=
  { id := "root", ntype := "message", position := { x := 250, y := 50 },
    data := { role := "assistant", content := rootContent, timestamp := ts,
              isInput := none, label := none } }

def initialState (ts : Nat) : GraphState :=
  { nodes := [initialNode ts], edges := [] }

/-- The pane branch of `onConnectEnd`: append a fresh input node at the
drop position and an edge from the connect-start node to it.  `inputId`
is `input-<Date.now()>` in the source and `ts` that same clock value. -/
def startBranchOp (parentId inputId : String) (pos : Position) (ts : Nat)
    (s : GraphState) : GraphState :=
  let newNode : ChatNode :=
    { id := inputId, ntype := "inputNode", position := pos,
      data := { role := "user", content := "", timestamp := ts,
                isInput := some true, label := none } }
  { nodes := s.nodes ++ [newNode],
    edges := addEdgeOp
      { id := "e-" ++ parentId ++ "-" ++ inputId, source := parentId,
        target := inputId, etype := some "smoothstep",
        markerEnd := some "arrowclosed" } s.edges }

/-- Steps 1-3 of `handleSend`: convert the input node in place to a user
message with the submitted text, append a placeholder assistant node
(positioned 200 below the input node when it is found, at the origin
otherwise), and add the edge from the (former) input node to it.
`assistantId` is `ai-<Date.now()>` in the source and `ts` that clock
value. -/
def submitOp (text inputNodeId assistantId : String) (ts : Nat)
    (s : GraphState) : GraphState :=
  let nodes1 := s.nodes.map (fun node =>
    if node.id == inputNodeId then
      { node with
        ntype := "message",
        data := { node.data with
                  role := "user", content := text, isInput := some false } }
    else node)
  let pos : Position :=
    match nodes1.find? (fun n => n.id == inputNodeId) with
    | some inputNode => { x := inputNode.position.x, y := inputNode.position.y + 200 }
    | none => { x := 0, y := 0 }
  let assistantNode : ChatNode :=
    { id := assistantId, ntype := "message", position := pos,
      data := { role := "assistant", content := "Thinking...", timestamp := ts,
                isInput := none, label := none } }
  { nodes := nodes1 ++ [assistantNode],
    edges := addEdgeOp
      { id := "e-" ++ inputNodeId ++ "-" ++ assistantId, source := inputNodeId,
        target := assistantId, etype := some "smoothstep",
        markerEnd := some "arrowclosed" } s.edges }

/-- The `onCancel` callback of an input node: drop the node and every edge
targeting it. -/
def cancelOp (inputId : String) (s : GraphState) : GraphState :=
  { nodes := s.nodes.filter (fun n => !(n.id == inputId)),
    edges := s.edges.filter (fun e => !(e.target == inputId)) }

/-! ## Backend reply write -/

/-- Outcome of the `fetch("/api/chat", ...)` call as observable by
`handleSend`:
* `fetchFailure` - the fetch promise rejected, `response.json()` threw,
  or the parsed body was `null` (so that `data.reply` threw); all of
  these reach the `catch` block;
* `jsonBody status reply` - the response body parsed as JSON with
  non-null value; `status` is the HTTP status (the source never reads
  it) and `reply` the `reply` field of the body: `none` when absent,
  `some none` when JSON `null`, `some (some s)` when the string `s`.
  (Non-string truthy `reply` values are outside this model; the source
  would store them verbatim.) -/
inductive BackendResult where
  | fetchFailure
  | jsonBody (status : Nat) (reply : Option (Option String))
deriving DecidableEq

/-- The expression `data.reply || "Error: No response"` for the reply shapes above:
absent, null and empty-string replies are falsy and fall back. -/
def replyOrFallback : Option (Option String) → String
  | none => "Error: No response"
  | some none => "Error: No response"
  | some (some s) => if s == "" then "Error: No response" else s

/-- The content string `handleSend` writes into the assistant node when
the backend call settles. -/
def replyContent : BackendResult → String
  | .fetchFailure => "Error: Could not fetch response."
  | .jsonBody _ reply => replyOrFallback reply

/-- The completion handler of `handleSend`: replace the content of the
node whose id is `assistantId`, leaving every other node untouched. -/
def handleReplyWrite (assistantId : String) (result : BackendResult)
    (nodes : List ChatNode) : List ChatNode :=
  nodes.map (fun n =>
    if n.id == assistantId then
      { n with data := { n.data with content := replyContent result } }
    else n)

/-- The reply write as a whole-state operation: it only ever calls
`setNodes`, so the edge list is untouched. -/
def replyCommitOp (assistantId : String) (result : BackendResult)
    (s : GraphState) : GraphState :=
  { s with nodes := handleReplyWrite assistantId result s.nodes }

/-! ## Keyboard navigation (ChatGraph `handleKeyDown`)

The handler sorts node lists with JavaScript `Array.prototype.sort`,
which is a stable comparison sort; a stable sort for a total preorder is
unique, so it is modelled by `List.insertionSort`. -/

/-- The five plain navigation keys the handler processes. -/
inductive NavKey where
  | tab
  | up
  | down
  | left
  | right
deriving DecidableEq

/-- Ascending timestamp order, the comparator `a.timestamp - b.timestamp`. -/
def tsLe (a b : ChatNode) : Prop := a.data.timestamp ≤ b.data.timestamp

/-- Descending timestamp order, the comparator `b.timestamp - a.timestamp`. -/
def tsGe (a b : ChatNode) : Prop := b.data.timestamp ≤ a.data.timestamp

instance : DecidableRel tsLe :=
  fun a b => inferInstanceAs (Decidable (a.data.timestamp ≤ b.data.timestamp))

instance : DecidableRel tsGe :=
  fun a b => inferInstanceAs (Decidable (b.data.timestamp ≤ a.data.timestamp))

instance : IsTotal ChatNode tsLe := ⟨fun _ _ => Nat.le_total _ _⟩

instance : IsTrans ChatNode tsLe := ⟨fun _ _ _ => Nat.le_trans⟩

instance : IsTotal ChatNode tsGe := ⟨fun _ _ => Nat.le_total _ _⟩

instance : IsTrans ChatNode tsGe := ⟨fun _ _ _ h h' => Nat.le_trans h' h⟩

/-- The nodes reached by outgoing edges of `parentId`: map each such
edge target through a node lookup and drop the misses
(`.filter(Boolean)` in the source). -/
def childNodesOf (nodes : List ChatNode) (edges : List GraphEdge)
    (parentId : String) : List ChatNode :=
  ((edges.filter (fun e => e.source == parentId)).map
    (fun e => nodes.find? (fun n => n.id == e.target))).reduceOption

/-- The fallback `currentNodes.find(n => n.id === "root") || currentNodes[0]`. -/
def rootDefault (n0 : ChatNode) (nodes : List ChatNode) : ChatNode :=
  (nodes.find? (fun n => n.id == "root")).getD n0

/-- The `nextNodeId` computed by the handler for one key press from the
node `current`.  `Tab` cycles in ascending timestamp order (a missing
index is the JavaScript value `-1`, hence the `Int` arithmetic); `ArrowDown`
picks the head of the children sorted by descending timestamp;
`ArrowUp` follows the first incoming edge; the sibling keys move one
step in the ascending-timestamp sibling order without wrapping. -/
def navNext (key : NavKey) (nodes : List ChatNode) (edges : List GraphEdge)
    (current : String) : Option String :=
  match key with
  | .tab =>
    let sorted := List.insertionSort tsLe nodes
    let currentIndex : Int :=
      match sorted.findIdx? (fun n => n.id == current) with
      | some i => (i : Int)
      | none => -1
    let nextIndex : Nat := ((currentIndex + 1) % (sorted.length : Int)).toNat
    (sorted.get? nextIndex).map (fun n => n.id)
  | .down =>
    let children := List.insertionSort tsGe (childNodesOf nodes edges current)
    children.head?.map (fun n => n.id)
  | .up => (edges.find? (fun e => e.target == current)).map (fun e => e.source)
  | .left =>
    match edges.find? (fun e => e.target == current) with
    | none => none
    | some incomingEdge =>
      let siblings := List.insertionSort tsLe (childNodesOf nodes edges incomingEdge.source)
      match siblings.findIdx? (fun n => n.id == current) with
      | none => none
      | some i =>
        if 0 < i then (siblings.get? (i - 1)).map (fun n => n.id) else none
  | .right =>
    match edges.find? (fun e => e.target == current) with
    | none => none
    | some incomingEdge =>
      let siblings := List.insertionSort tsLe (childNodesOf nodes edges incomingEdge.source)
      match siblings.findIdx? (fun n => n.id == current) with
      | none => none
      | some i =>
        if i + 1 < siblings.length then (siblings.get? (i + 1)).map (fun n => n.id) else none

/-- One key press of the navigation handler, returning the focused node
id afterwards.  With an empty snapshot the handler returns early.  A
missing or stale focus is replaced by the root default before the key
is interpreted.  A computed target is focused only if it exists
(`focusNode` returns early otherwise); with no target, the handler
focuses the resolved start node only when the previous focus was null. -/
def navStep (key : NavKey) (nodes : List ChatNode) (edges : List GraphEdge)
    (focus : Option String) : Option String :=
  match nodes with
  | [] => focus
  | n0 :: rest =>
    let ns := n0 :: rest
    let current : String :=
      match focus with
      | some f => if ns.any (fun n => n.id == f) then f else (rootDefault n0 ns).id
      | none => (rootDefault n0 ns).id
    match navNext key ns edges current with
    | some t => if ns.any (fun n => n.id == t) then some t else focus
    | none =>
      match focus with
      | none => if ns.any (fun n => n.id == current) then some current else focus
      | some _ => focus

/-! ## Persistence codec (`serializeState` / `importState`)

JavaScript values reachable in the codec are modelled by `JVal`, which
is JSON plus the `undefined` value produced by missing-property access.
Property access on `null`/`undefined` throws; on any other non-object
it yields `undefined`. -/

inductive JVal where
  | undef
  | null
  | bool (b : Bool)
  | num (n : Int)
  | str (s : String)
  | arr (elems : List JVal)
  | obj (fields : List (String × JVal))

/-- JavaScript truthiness of a `JVal`. -/
def truthy : JVal → Bool
  | .undef => false
  | .null => false
  | .bool b => b
  | .num n => !(n == 0)
  | .str s => !(s == "")
  | .arr _ => true
  | .obj _ => true

/-- Property access `v[k]`: throws on `null`/`undefined`, looks the key
up on objects, and yields `undefined` on any other value. -/
def jsGet : JVal → String → Except Unit JVal
  | .undef, _ => .error ()
  | .null, _ => .error ()
  | .obj fields, k => .ok (((fields.find? (fun f => f.1 == k)).map (fun f => f.2)).getD .undef)
  | _, _ => .ok .undef

def posJ (p : Position) : JVal := .obj [("x", .num p.x), ("y", .num p.y)]

def optBoolJ : Option Bool → JVal
  | none => .undef
  | some b => .bool b

def optStrJ : Option String → JVal
  | none => .undef
  | some s => .str s

/-- One serialized node of `serializeState`: exactly the fields the
source keeps (`id`, `type`, `position` and the five data fields;
callbacks and transient geometry are dropped by construction). -/
def serializeNode (node : ChatNode) : JVal :=
  .obj [("id", .str node.id), ("type", .str node.ntype),
        ("position", posJ node.position),
        ("data", .obj [("role", .str node.data.role),
                       ("content", .str node.data.content),
                       ("timestamp", .num node.data.timestamp),
                       ("isInput", optBoolJ node.data.isInput),
                       ("label", optStrJ node.data.label)])]

/-- The `markerEnd` value of a serialized edge. -/
def markerJ : Option String → JVal
  | none => .undef
  | some m => .obj [("type", .str m)]

/-- One serialized edge of `serializeState`. -/
def serializeEdge (edge : GraphEdge) : JVal :=
  .obj [("id", .str edge.id), ("source", .str edge.source),
        ("target", .str edge.target), ("type", optStrJ edge.etype),
        ("markerEnd", markerJ edge.markerEnd)]

/-- The `serializeState` function: the persisted document. `exportedAt` is
the ISO timestamp `new Date().toISOString()` passed in here. -/
def serializeState (nodes : List ChatNode) (edges : List GraphEdge)
    (viewport : JVal) (exportedAt : String) : JVal :=
  .obj [("nodes", .arr (nodes.map serializeNode)),
        ("edges", .arr (edges.map serializeEdge)),
        ("viewport", viewport),
        ("exportedAt", .str exportedAt),
        ("version", .str "1.0")]

/-- A node as rebuilt by `importState`: the raw field values (loose, as
in the source, which never validates them) plus whether an `onSend`
callback was re-attached and whether an `origin` was spread in. -/
structure RestoredNode where
  id : JVal
  ntype : JVal
  position : JVal
  role : JVal
  content : JVal
  timestamp : JVal
  isInput : JVal
  label : JVal
  hasOnSend : Bool
  origin : Option JVal

/-- An edge as rebuilt by `importState` (`type` and `markerEnd` get
defaults when falsy). -/
structure RestoredEdge where
  id : JVal
  source : JVal
  target : JVal
  etype : JVal
  markerEnd : JVal

/-- Decoding of one serialized node, with JavaScript property-access
semantics: it throws exactly when the element is not an object or its
`data` is absent or null. -/
def decodeNodeJs (v : JVal) : Except Unit RestoredNode := do
  let id ← jsGet v "id"
  let ty ← jsGet v "type"
  let pos ← jsGet v "position"
  let dat ← jsGet v "data"
  let role ← jsGet dat "role"
  let content ← jsGet dat "content"
  let ts ← jsGet dat "timestamp"
  let isInput ← jsGet dat "isInput"
  let label ← jsGet dat "label"
  let origin ← jsGet v "origin"
  pure { id := id, ntype := ty, position := pos, role := role,
         content := content, timestamp := ts, isInput := isInput,
         label := label, hasOnSend := truthy isInput,
         origin := if truthy origin then some origin else none }

/-- Decoding of one serialized edge: throws exactly when the element is
`null`; `edge.type || "smoothstep"` and the marker default otherwise. -/
def decodeEdgeJs (v : JVal) : Except Unit RestoredEdge := do
  let id ← jsGet v "id"
  let source ← jsGet v "source"
  let target ← jsGet v "target"
  let ty ← jsGet v "type"
  let me ← jsGet v "markerEnd"
  pure { id := id, source := source, target := target,
         etype := if truthy ty then ty else .str "smoothstep",
         markerEnd := if truthy me then me else .obj [("type", .str "arrowclosed")] }

/-- Model of `Array.prototype.map` over a function that may throw: elements left
to right, the first throw aborts the whole map. -/
def mapThrow {α β : Type} (f : α → Except Unit β) : List α → Except Unit (List β)
  | [] => .ok []
  | x :: xs =>
    match f x with
    | .error e => .error e
    | .ok y =>
      match mapThrow f xs with
      | .error e => .error e
      | .ok ys => .ok (y :: ys)

/-- Result of `importState`: `failure` is the `catch` path returning
`false` (nothing was committed), `success` carries what is passed to
`setNodes`/`setEdges` and to `setViewport` when `state.viewport` is
truthy. -/
inductive ImportOutcome where
  | failure
  | success (nodes : List RestoredNode) (edges : List RestoredEdge)
      (viewport : Option JVal)

/-- The `importState(jsonString)` function.  The argument is the result of
`JSON.parse`: `none` when parsing threw.  The body throws (hence
returns `false`) when `state.nodes` or `state.edges` is falsy, when
either is not an array (`.map` is not a function), or when decoding any
element throws; all decoding happens before any state is committed. -/
def importState (parsed : Option JVal) : ImportOutcome :=
  match parsed with
  | none => .failure
  | some state =>
    match jsGet state "nodes" with
    | .error _ => .failure
    | .ok ns =>
      match jsGet state "edges" with
      | .error _ => .failure
      | .ok es =>
        if truthy ns && truthy es then
          match ns with
          | .arr nlist =>
            match mapThrow decodeNodeJs nlist with
            | .error _ => .failure
            | .ok restoredNodes =>
              match es with
              | .arr elist =>
                match mapThrow decodeEdgeJs elist with
                | .error _ => .failure
                | .ok restoredEdges =>
                  match jsGet state "viewport" with
                  | .error _ => .failure
                  | .ok vp =>
                    .success restoredNodes restoredEdges
                      (if truthy vp then some vp else none)
              | _ => .failure
          | _ => .failure
        else .failure

/-- The `importState` call applied to the live state: on failure the current
nodes, edges and viewport are untouched and `false` is returned; on
success the restored lists replace them (the viewport only when the
document viewport is truthy) and `true` is returned. -/
def importIntoState
    (cur : List RestoredNode × List RestoredEdge × JVal)
    (parsed : Option JVal) :
    (List RestoredNode × List RestoredEdge × JVal) × Bool :=
  match importState parsed with
  | .failure => (cur, false)
  | .success ns es vp =>
    ((ns, es, match vp with | some v => v | none => cur.2.2), true)

/-! ## Concrete scenario states

The scenario of spec section 8: root R, `startBranch(R, pos)` giving
pending node `input-1`, `submit(input-1, "hi")` creating assistant
`ai-2`, then the backend settling. -/

def demo0 : GraphState := initialState 0

def demo1 : GraphState := startBranchOp "root" "input-1" { x := 10, y := 300 } 1 demo0

def demo2 : GraphState := submitOp "hi" "input-1" "ai-2" 2 demo1

/-- After the backend replied `reply := "hello"` with HTTP 200. -/
def demo3 : GraphState := replyCommitOp "ai-2" (.jsonBody 200 (some (some "hello"))) demo2

/-- After the backend rejected the request: HTTP 500 with a JSON body
that has no `reply` field (the shape the /api/chat route returns on
error). -/
def demo4 : GraphState := replyCommitOp "ai-2" (.jsonBody 500 none) demo2

/-- demo3 extended with a sibling branch hanging off the root. -/
def demoSib : GraphState := startBranchOp "root" "input-3" { x := 50, y := 60 } 3 demo3

/-! ## C4 -/

/-- C4, counterexample: in the scenario (root R parent of P1, P1
submitted with "hi", assistant A1 created and the reply "hello" written
into it), resolving the context at A1 does not return the two turns the
claim states: `getContextForNode` also appends the (assistant,
"hello") turn of A1 itself, because the walk starts at the given node. -/
theorem c4_counterexample :
    getContextForNode "ai-2" demo3.nodes demo3.edges
        ≠ [{ role := "assistant", content := rootContent },
           { role := "user", content := "hi" }] ∧
    getContextForNode "ai-2" demo3.nodes demo3.edges
        = [{ role := "assistant", content := rootContent },
           { role := "user", content := "hi" },
           { role := "assistant", content := "hello" }] := by
  decide

/-- C4, amended: in the scenario, resolving the context at A1 returns
the three turns [(assistant, R.content), (user, "hi"),
(assistant, "hello")] — the ancestor turns in creation order followed
by the turn of A1 itself, which the resolver includes since the walk
starts at the given node. -/
theorem c4_scenario_context :
    getContextForNode "ai-2" demo3.nodes demo3.edges
        = [{ role := "assistant", content := rootContent },
           { role := "user", content := "hi" },
           { role := "assistant", content := "hello" }] := by
  decide

/-! ## C2 / C10: the reply failure paths -/

/-- C2, counterexample: a BackendRejected outcome — an HTTP 500
response whose JSON body carries an `error` field and no `reply`
(exactly what /api/chat returns on failure) — leaves the assistant node
with content "Error: No response", not the claimed common sentinel
"Error: Could not fetch response.": `handleSend` never checks the HTTP
status, so only a thrown fetch/parse reaches the sentinel. -/
theorem c2_counterexample :
    (demo4.nodes.find? (fun n => n.id == "ai-2")).map (fun n => n.data.content)
        = some "Error: No response" ∧
    (demo4.nodes.find? (fun n => n.id == "ai-2")).map (fun n => n.data.content)
        ≠ some "Error: Could not fetch response." := by
  decide

/-- C2, amended: a BackendUnavailable failure (fetch or JSON parsing
throws) replaces the content of the assistant node with the sentinel
"Error: Could not fetch response.", while a BackendRejected failure
(non-success HTTP response whose body parses as JSON without a truthy
`reply`) replaces it with "Error: No response", since the code never
inspects the HTTP status; in both cases the node is not removed (the
node list keeps its length and every other node survives unchanged),
no retry occurs, and nothing outside the content of that node is touched
(the edge list is untouched). -/
theorem c2_failure_paths (nodes : List ChatNode) (assistantId : String)
    (status : Nat) (a : ChatNode)
    (hmem : a ∈ nodes) (hid : a.id = assistantId) :
    ({ a with data := { a.data with content := "Error: Could not fetch response." } }
        ∈ handleReplyWrite assistantId .fetchFailure nodes) ∧
    ({ a with data := { a.data with content := "Error: No response" } }
        ∈ handleReplyWrite assistantId (.jsonBody status none) nodes) ∧
    (∀ result : BackendResult,
      (handleReplyWrite assistantId result nodes).length = nodes.length) ∧
    (∀ result : BackendResult, ∀ n ∈ nodes, n.id ≠ assistantId →
      n ∈ handleReplyWrite assistantId result nodes) ∧
    (∀ result : BackendResult, ∀ s : GraphState,
      (replyCommitOp assistantId result s).edges = s.edges) := by
  refine ⟨?_, ?_, fun result => List.length_map _ _, ?_, fun result s => rfl⟩
  · have h := List.mem_map_of_mem
      (fun n => if n.id == assistantId then
        { n with data := { n.data with content := replyContent .fetchFailure } }
       else n) hmem
    simpa [handleReplyWrite, hid, replyContent] using h
  · have h := List.mem_map_of_mem
      (fun n => if n.id == assistantId then
        { n with data := { n.data with content := replyContent (.jsonBody status none) } }
       else n) hmem
    simpa [handleReplyWrite, hid, replyContent, replyOrFallback] using h
  · intro result n hn hne
    have h := List.mem_map_of_mem
      (fun n => if n.id == assistantId then
        { n with data := { n.data with content := replyContent result } }
       else n) hn
    simpa [handleReplyWrite, hne] using h

/-- Witness for C2: in the concrete scenario state, a fetch failure
leaves the assistant node in place with the sentinel content. -/
theorem c2_failure_paths_witness :
    ({ id := "ai-2", ntype := "message", position := { x := 10, y := 500 },
       data := { role := "assistant", content := "Error: Could not fetch response.",
                 timestamp := 2, isInput := none, label := none } } : ChatNode)
      ∈ handleReplyWrite "ai-2" .fetchFailure demo2.nodes :=
  (c2_failure_paths demo2.nodes "ai-2" 500
    { id := "ai-2", ntype := "message", position := { x := 10, y := 500 },
      data := { role := "assistant", content := "Thinking...", timestamp := 2,
                isInput := none, label := none } }
    (by decide) rfl).1

/-- C10: when the backend response parses as JSON but its `reply` field
is absent, null, or the empty string, the fixed fallback
"Error: No response" is written into the assistant node — a third
user-visible outcome: it differs from the fetch-failure sentinel, while
any non-empty reply string is written verbatim. -/
theorem c10_reply_fallback (nodes : List ChatNode) (assistantId : String)
    (status : Nat) (a : ChatNode)
    (hmem : a ∈ nodes) (hid : a.id = assistantId) :
    (∀ r ∈ ([none, some none, some (some "")] : List (Option (Option String))),
      { a with data := { a.data with content := "Error: No response" } }
        ∈ handleReplyWrite assistantId (.jsonBody status r) nodes) ∧
    (∀ s : String, s ≠ "" →
      { a with data := { a.data with content := s } }
        ∈ handleReplyWrite assistantId (.jsonBody status (some (some s))) nodes) ∧
    "Error: No response" ≠ "Error: Could not fetch response." := by
  refine ⟨?_, ?_, by decide⟩
  · intro r hr
    simp only [List.mem_cons, List.not_mem_nil, or_false] at hr
    rcases hr with rfl | rfl | rfl <;>
    · have h := List.mem_map_of_mem
        (fun n => if n.id == assistantId then
          { n with data := { n.data with content := "Error: No response" } }
         else n) hmem
      simpa [handleReplyWrite, hid, replyContent, replyOrFallback] using h
  · intro s hs
    have hsb : (s == "") = false := beq_eq_false_iff_ne.mpr hs
    have h := List.mem_map_of_mem
      (fun n => if n.id == assistantId then
        { n with data := { n.data with content := s } }
       else n) hmem
    simpa [handleReplyWrite, hid, replyContent, replyOrFallback, hsb] using h

/-- Witness for C10: in the concrete scenario state, a JSON body whose
`reply` is null yields the "Error: No response" content on the
assistant node. -/
theorem c10_reply_fallback_witness :
    ({ id := "ai-2", ntype := "message", position := { x := 10, y := 500 },
       data := { role := "assistant", content := "Error: No response",
                 timestamp := 2, isInput := none, label := none } } : ChatNode)
      ∈ handleReplyWrite "ai-2" (.jsonBody 500 (some none)) demo2.nodes :=
  (c10_reply_fallback demo2.nodes "ai-2" 500
    { id := "ai-2", ntype := "message", position := { x := 10, y := 500 },
      data := { role := "assistant", content := "Thinking...", timestamp := 2,
                isInput := none, label := none } }
    (by decide) rfl).1 (some none) (by decide)

/-- C8: the completion write of a backend call bound to an assistant id
changes only the content of the node with that exact id — every other
node keeps its value and position in the list, and the edge list is
untouched — and when no node with that id exists the whole snapshot is
left unchanged (and no error is raised: the write is a total
function). -/
theorem c8_reply_write_frame (s : GraphState) (assistantId : String)
    (result : BackendResult) :
    (replyCommitOp assistantId result s).edges = s.edges ∧
    (replyCommitOp assistantId result s).nodes.length = s.nodes.length ∧
    (∀ i : Nat, ∀ n : ChatNode, s.nodes[i]? = some n → n.id ≠ assistantId →
      (replyCommitOp assistantId result s).nodes[i]? = some n) ∧
    (∀ i : Nat, ∀ n : ChatNode, s.nodes[i]? = some n → n.id = assistantId →
      (replyCommitOp assistantId result s).nodes[i]? =
        some { n with data := { n.data with content := replyContent result } }) ∧
    ((∀ n ∈ s.nodes, n.id ≠ assistantId) → replyCommitOp assistantId result s = s) := by
  refine ⟨rfl, List.length_map _ _, ?_, ?_, ?_⟩
  · intro i n hget hne
    have hnb : (n.id == assistantId) = false := beq_eq_false_iff_ne.mpr hne
    rw [replyCommitOp, handleReplyWrite, List.getElem?_map, hget]
    simp [hne]
  · intro i n hget hne
    rw [replyCommitOp, handleReplyWrite, List.getElem?_map, hget]
    simp [hne]
  · intro hall
    have hmap : handleReplyWrite assistantId result s.nodes = s.nodes := by
      have : ∀ n ∈ s.nodes,
          (if n.id == assistantId then
            { n with data := { n.data with content := replyContent result } }
           else n) = n := by
        intro n hn
        have hnb : (n.id == assistantId) = false :=
          beq_eq_false_iff_ne.mpr (hall n hn)
        simp [hnb]
      calc handleReplyWrite assistantId result s.nodes
          = s.nodes.map id := List.map_congr_left this
        _ = s.nodes := List.map_id _
    cases s
    simp [replyCommitOp, hmap]

/-- Witness for C8: in the concrete scenario state, the root node (index
0) survives a failure write addressed to "ai-2" unchanged. -/
theorem c8_reply_write_frame_witness :
    (replyCommitOp "ai-2" .fetchFailure demo2).nodes[0]? = some (initialNode 0) :=
  (c8_reply_write_frame demo2 "ai-2" .fetchFailure).2.2.1 0 (initialNode 0)
    (by decide) (by decide)

/-! ## C9: the in-degree invariant -/

/-- Snapshots reachable from the initial single-root snapshot by the
three branch-controller operations.  The freshness side conditions
record that the generated `input-<Date.now()>` / `ai-<Date.now()>` ids
are new to the snapshot. -/
inductive Reachable : GraphState → Prop where
  | init (ts : Nat) : Reachable (initialState ts)
  | startBranch {s : GraphState} (parentId inputId : String) (pos : Position)
      (ts : Nat) : Reachable s → inputId ∉ s.nodes.map (fun n => n.id) →
      Reachable (startBranchOp parentId inputId pos ts s)
  | submit {s : GraphState} (text inputNodeId assistantId : String) (ts : Nat) :
      Reachable s → assistantId ∉ s.nodes.map (fun n => n.id) →
      Reachable (submitOp text inputNodeId assistantId ts s)
  | cancel {s : GraphState} (inputId : String) :
      Reachable s → Reachable (cancelOp inputId s)

/-- Auxiliary invariant: edge targets are pairwise distinct and each is
the id of some node of the snapshot. -/
def targetsOk (s : GraphState) : Prop :=
  (s.edges.map (fun e => e.target)).Nodup ∧
  ∀ e ∈ s.edges, e.target ∈ s.nodes.map (fun n => n.id)

theorem addEdgeOp_eq_or (e : GraphEdge) (edges : List GraphEdge) :
    addEdgeOp e edges = edges ∨ addEdgeOp e edges = edges ++ [e] := by
  unfold addEdgeOp
  split
  · exact Or.inl rfl
  · split
    · exact Or.inl rfl
    · exact Or.inr rfl

theorem targetsOk_addEdge {s : GraphState} (newNodes : List ChatNode)
    (E : GraphEdge) (h : targetsOk s)
    (hsup : ∀ i ∈ s.nodes.map (fun n => n.id), i ∈ newNodes.map (fun n => n.id))
    (hfresh : E.target ∉ s.nodes.map (fun n => n.id))
    (hmem : E.target ∈ newNodes.map (fun n => n.id)) :
    targetsOk { nodes := newNodes, edges := addEdgeOp E s.edges } := by
  obtain ⟨hN, hT⟩ := h
  rcases addEdgeOp_eq_or E s.edges with heq | heq <;>
    refine ⟨?_, ?_⟩ <;> rw [heq]
  · exact hN
  · exact fun e he => hsup _ (hT e he)
  · rw [List.map_append, List.nodup_append]
    refine ⟨hN, List.nodup_singleton _, ?_⟩
    intro x hx hy
    rw [List.map_singleton, List.mem_singleton] at hy
    subst hy
    obtain ⟨e, he, hex⟩ := List.mem_map.mp hx
    exact hfresh (hex ▸ hT e he)
  · intro e he
    rcases List.mem_append.mp he with he | he
    · exact hsup _ (hT e he)
    · rw [List.mem_singleton] at he
      subst he
      exact hmem

theorem targetsOk_reachable {s : GraphState} (h : Reachable s) : targetsOk s := by
  induction h with
  | init ts => exact ⟨List.nodup_nil, by simp [initialState]⟩
  | startBranch parentId inputId pos ts _ hfresh ih =>
    refine targetsOk_addEdge _ _ ih ?_ (by simpa using hfresh) ?_
    · intro i hi
      rw [List.map_append]
      exact List.mem_append_left _ hi
    · rw [List.map_append]
      exact List.mem_append_right _ (by simp)
  | submit text inputNodeId assistantId ts _ hfresh ih =>
    have hids : ∀ (l : List ChatNode),
        (l.map (fun node =>
          if node.id == inputNodeId then
            { node with
              ntype := "message",
              data := { node.data with
                        role := "user", content := text, isInput := some false } }
          else node)).map (fun n => n.id) = l.map (fun n => n.id) := by
      intro l
      rw [List.map_map]
      refine List.map_congr_left ?_
      intro n _
      simp only [Function.comp_apply]
      split <;> rfl
    refine targetsOk_addEdge _ _ ih ?_ (by simpa using hfresh) ?_
    · intro i hi
      rw [List.map_append, hids]
      exact List.mem_append_left _ hi
    · rw [List.map_append]
      exact List.mem_append_right _ (by simp)
  | @cancel s inputId _ ih =>
    obtain ⟨hN, hT⟩ := ih
    constructor
    · show ((s.edges.filter (fun e => !(e.target == inputId))).map
        (fun e => e.target)).Nodup
      exact hN.sublist (List.Sublist.map _ (List.filter_sublist _))
    · intro e he
      have he' : e ∈ s.edges.filter (fun e => !(e.target == inputId)) := he
      rw [List.mem_filter] at he'
      obtain ⟨hmem, hne⟩ := he'
      obtain ⟨n, hn, hnid⟩ := List.mem_map.mp (hT e hmem)
      show e.target ∈ (s.nodes.filter (fun n => !(n.id == inputId))).map
        (fun n => n.id)
      refine List.mem_map.mpr ⟨n, List.mem_filter.mpr ⟨hn, ?_⟩, hnid⟩
      rw [hnid]
      exact hne

/-- C9: starting from the initial single-root snapshot, after any
sequence of startBranch / submit / cancel operations, every node of the
snapshot has at most one incoming edge. -/
theorem c9_in_degree (s : GraphState) (h : Reachable s) :
    ∀ n ∈ s.nodes, s.edges.countP (fun e => e.target == n.id) ≤ 1 := by
  intro n _
  obtain ⟨hN, _⟩ := targetsOk_reachable h
  have h1 : List.count n.id (s.edges.map (fun e => e.target)) ≤ 1 :=
    List.nodup_iff_count_le_one.mp hN n.id
  rw [List.count_eq_countP, List.countP_map] at h1
  exact h1

/-- A four-operation run: branch, submit, a second branch, cancel it. -/
def demo9 : GraphState :=
  cancelOp "input-3" (startBranchOp "root" "input-3" { x := 5, y := 5 } 3 demo2)

/-- Witness for C9 on the concrete four-operation run. -/
theorem c9_in_degree_witness :
    demo9.edges.countP (fun e => e.target == (initialNode 0).id) ≤ 1 := by
  have h2 : Reachable demo2 :=
    Reachable.submit "hi" "input-1" "ai-2" 2
      (Reachable.startBranch "root" "input-1" { x := 10, y := 300 } 1
        (Reachable.init 0) (by decide))
      (by decide)
  exact c9_in_degree demo9
    (Reachable.cancel "input-3"
      (Reachable.startBranch "root" "input-3" { x := 5, y := 5 } 3 h2 (by decide)))
    (initialNode 0) (by decide)

/-! ## C1: the context resolver on an ancestor chain -/

/-- The walk structure the resolver follows: `upLinked edges c anc`
states that the first edge targeting `c` goes to the first element of
`anc`, and so on up the list, whose last element has no incoming edge.
`anc` is thus the ancestor chain of `c` from its parent up to the root,
exactly as the loop of `getContextForNode` discovers it. -/
def upLinked (edges : List GraphEdge) : String → List String → Bool
  | current, [] => (edges.find? (fun e => e.target == current)).isNone
  | current, parent :: rest =>
    match edges.find? (fun e => e.target == current) with
    | none => false
    | some e => e.source == parent && upLinked edges parent rest

/-- The (role, content) pairs of the "message" nodes among `ids`, in
order, skipping ids whose node is an input node. -/
def chainMessages (nodes : List ChatNode) (ids : List String) : List ChatMessage :=
  ids.filterMap (fun i =>
    match nodes.find? (fun n => n.id == i) with
    | none => none
    | some n =>
      if n.ntype == "message" then
        some { role := n.data.role, content := n.data.content }
      else none)

theorem chainMessages_append (nodes : List ChatNode) (l1 l2 : List String) :
    chainMessages nodes (l1 ++ l2) =
      chainMessages nodes l1 ++ chainMessages nodes l2 :=
  List.filterMap_append _ _ _

theorem getCtxLoop_chain (nodes : List ChatNode) (edges : List GraphEdge) :
    ∀ (anc : List String) (c : String) (acc : List ChatMessage) (fuel : Nat),
      upLinked edges c anc = true →
      (∀ i ∈ c :: anc, (nodes.find? (fun n => n.id == i)).isSome) →
      (c :: anc).length ≤ fuel →
      getCtxLoop nodes edges fuel c acc =
        chainMessages nodes ((c :: anc).reverse) ++ acc := by
  intro anc
  induction anc with
  | nil =>
    intro c acc fuel hlink hmem hfuel
    obtain ⟨fu, rfl⟩ : ∃ fu, fuel = fu + 1 := ⟨fuel - 1, by
      simp only [List.length_cons, List.length_nil] at hfuel
      omega⟩
    obtain ⟨node, hnode⟩ := Option.isSome_iff_exists.mp (hmem c (by simp))
    have hnone : edges.find? (fun e => e.target == c) = none := by
      simpa [upLinked] using hlink
    simp only [getCtxLoop, hnode, hnone, List.reverse_singleton]
    simp only [chainMessages, List.filterMap_cons, List.filterMap_nil, hnode]
    split <;> simp
  | cons p rest ih =>
    intro c acc fuel hlink hmem hfuel
    obtain ⟨fu, rfl⟩ : ∃ fu, fuel = fu + 1 := ⟨fuel - 1, by
      simp only [List.length_cons] at hfuel
      omega⟩
    obtain ⟨node, hnode⟩ := Option.isSome_iff_exists.mp (hmem c (by simp))
    obtain ⟨e, hfind, hsrc, hrest⟩ :
        ∃ e, edges.find? (fun e => e.target == c) = some e ∧
          e.source = p ∧ upLinked edges p rest = true := by
      unfold upLinked at hlink
      cases hfind : edges.find? (fun e => e.target == c) with
      | none => rw [hfind] at hlink; simp at hlink
      | some e =>
        rw [hfind] at hlink
        rw [Bool.and_eq_true] at hlink
        exact ⟨e, rfl, by simpa using hlink.1, hlink.2⟩
    simp only [getCtxLoop, hnode, hfind]
    rw [hsrc]
    rw [ih p _ fu hrest (fun i hi => hmem i (List.mem_cons_of_mem _ hi)) (by
      simp only [List.length_cons] at hfuel ⊢
      omega)]
    have hrev : (c :: p :: rest).reverse = (p :: rest).reverse ++ [c] := by
      simp
    rw [hrev, chainMessages_append]
    simp only [chainMessages, List.filterMap_cons, List.filterMap_nil, hnode]
    split <;> simp

/-- C1: for every node id, node list and edge list whose walk from the
node terminates (the ancestor chain `anc` exists, with pairwise
distinct ids all present as nodes), `getContextForNode` returns exactly
the (role, content) pairs of the "message"-kind nodes on the chain from
the root down to and including the given node, in that order, skipping
input ("inputNode") nodes; the walk stops at the first node with no
incoming edge.  In particular a chain of N sequential submits resolves
to its turns in creation order with no duplicate and no gap, whatever
sibling branches exist elsewhere (they only add edges with other
targets, which leave `upLinked` intact). -/
theorem c1_context_resolver (nodeId : String) (nodes : List ChatNode)
    (edges : List GraphEdge) (anc : List String)
    (hlink : upLinked edges nodeId anc = true)
    (hmem : ∀ i ∈ nodeId :: anc, (nodes.find? (fun n => n.id == i)).isSome)
    (hnd : (nodeId :: anc).Nodup) :
    getContextForNode nodeId nodes edges =
      chainMessages nodes ((nodeId :: anc).reverse) := by
  have hsub : (nodeId :: anc) ⊆ nodes.map (fun n => n.id) := by
    intro i hi
    obtain ⟨n, hn, hp⟩ := List.find?_isSome.mp (hmem i hi)
    exact List.mem_map.mpr ⟨n, hn, by simpa using hp⟩
  have hlen : anc.length + 1 ≤ nodes.length := by
    have h := (hnd.subperm hsub).length_le
    simpa using h
  have h := getCtxLoop_chain nodes edges anc nodeId [] (nodes.length + 1) hlink
    hmem (by simp only [List.length_cons]; omega)
  simpa [getContextForNode] using h

/-- Witness for C1: on the scenario state extended with a sibling
branch, resolving the last chain node yields the three turns in
creation order. -/
theorem c1_context_resolver_witness :
    getContextForNode "ai-2" demoSib.nodes demoSib.edges =
      [{ role := "assistant", content := rootContent },
       { role := "user", content := "hi" },
       { role := "assistant", content := "hello" }] :=
  (c1_context_resolver "ai-2" demoSib.nodes demoSib.edges ["input-1", "root"]
    (by decide) (by decide) (by decide)).trans (by decide)

/-! ## C3 / C5: the persistence codec -/

/-- What decoding a node serialized from `n` yields. -/
def restoredOfNode (n : ChatNode) : RestoredNode :=
  { id := .str n.id, ntype := .str n.ntype, position := posJ n.position,
    role := .str n.data.role, content := .str n.data.content,
    timestamp := .num n.data.timestamp, isInput := optBoolJ n.data.isInput,
    label := optStrJ n.data.label,
    hasOnSend := truthy (optBoolJ n.data.isInput), origin := none }

/-- What decoding an edge serialized from `e` yields. -/
def restoredOfEdge (e : GraphEdge) : RestoredEdge :=
  { id := .str e.id, source := .str e.source, target := .str e.target,
    etype := if truthy (optStrJ e.etype) then optStrJ e.etype
             else .str "smoothstep",
    markerEnd := if truthy (markerJ e.markerEnd) then markerJ e.markerEnd
                 else .obj [("type", .str "arrowclosed")] }

theorem decodeNodeJs_serializeNode (n : ChatNode) :
    decodeNodeJs (serializeNode n) = .ok (restoredOfNode n) := rfl

theorem decodeEdgeJs_serializeEdge (e : GraphEdge) :
    decodeEdgeJs (serializeEdge e) = .ok (restoredOfEdge e) := rfl

theorem mapThrow_map {α β γ : Type} (f : β → Except Unit γ) (s : α → β)
    (g : α → γ) (h : ∀ x, f (s x) = .ok (g x)) :
    ∀ l : List α, mapThrow f (l.map s) = .ok (l.map g) := by
  intro l
  induction l with
  | nil => rfl
  | cons x xs ih => simp [mapThrow, h x, ih]

theorem mapThrow_ok_mem {α β : Type} {f : α → Except Unit β} :
    ∀ {l : List α} {ys : List β}, mapThrow f l = .ok ys →
      ∀ x ∈ l, ∃ y, f x = .ok y := by
  intro l
  induction l with
  | nil => intro ys _ x hx; cases hx
  | cons a as ih =>
    intro ys h x hx
    unfold mapThrow at h
    cases hfa : f a with
    | error e => rw [hfa] at h; cases h
    | ok y =>
      rw [hfa] at h
      cases hrest : mapThrow f as with
      | error e => rw [hrest] at h; cases h
      | ok ys2 =>
        rcases List.mem_cons.mp hx with rfl | hx2
        · exact ⟨y, hfa⟩
        · exact ih hrest x hx2

theorem mapThrow_ok_of_forall {α β : Type} {f : α → Except Unit β} :
    ∀ {l : List α}, (∀ x ∈ l, ∃ y, f x = .ok y) →
      ∃ ys, mapThrow f l = .ok ys := by
  intro l
  induction l with
  | nil => intro _; exact ⟨[], rfl⟩
  | cons a as ih =>
    intro h
    obtain ⟨y, hy⟩ := h a (by simp)
    obtain ⟨ys, hys⟩ := ih (fun x hx => h x (by simp [hx]))
    exact ⟨y :: ys, by simp [mapThrow, hy, hys]⟩

theorem jsGet_ok_of_ok {v : JVal} {k j : String} {x : JVal}
    (h : jsGet v k = .ok x) : ∃ y, jsGet v j = .ok y := by
  cases v <;> first
    | exact ⟨_, rfl⟩
    | exact Except.noConfusion h

/-- C3: round-trip.  Importing the output of `serializeState` succeeds,
and the restored nodes have the same ids, positions, roles, contents
and timestamps as the serialized snapshot, and the restored edges the
same ids, sources and targets (callbacks are no part of the document
and are excluded). -/
theorem c3_roundtrip (nodes : List ChatNode) (edges : List GraphEdge)
    (viewport : JVal) (exportedAt : String) :
    ∃ rns res vp,
      importState (some (serializeState nodes edges viewport exportedAt)) =
        .success rns res vp ∧
      rns.map (fun r => r.id) = nodes.map (fun n => JVal.str n.id) ∧
      rns.map (fun r => r.position) = nodes.map (fun n => posJ n.position) ∧
      rns.map (fun r => r.role) = nodes.map (fun n => JVal.str n.data.role) ∧
      rns.map (fun r => r.content) =
        nodes.map (fun n => JVal.str n.data.content) ∧
      rns.map (fun r => r.timestamp) =
        nodes.map (fun n => JVal.num n.data.timestamp) ∧
      res.map (fun r => r.id) = edges.map (fun e => JVal.str e.id) ∧
      res.map (fun r => r.source) = edges.map (fun e => JVal.str e.source) ∧
      res.map (fun r => r.target) = edges.map (fun e => JVal.str e.target) := by
  have hn := mapThrow_map decodeNodeJs serializeNode restoredOfNode
    decodeNodeJs_serializeNode nodes
  have he := mapThrow_map decodeEdgeJs serializeEdge restoredOfEdge
    decodeEdgeJs_serializeEdge edges
  refine ⟨nodes.map restoredOfNode, edges.map restoredOfEdge,
    if truthy viewport then some viewport else none, ?_,
    ?_, ?_, ?_, ?_, ?_, ?_, ?_, ?_⟩
  · show (match mapThrow decodeNodeJs (nodes.map serializeNode) with
      | .error _ => ImportOutcome.failure
      | .ok restoredNodes =>
        match mapThrow decodeEdgeJs (edges.map serializeEdge) with
        | .error _ => ImportOutcome.failure
        | .ok restoredEdges =>
          ImportOutcome.success restoredNodes restoredEdges
            (if truthy viewport then some viewport else none)) =
      ImportOutcome.success (nodes.map restoredOfNode)
        (edges.map restoredOfEdge)
        (if truthy viewport then some viewport else none)
    rw [hn, he]
  all_goals rw [List.map_map]; rfl

/-- Well-formedness of the `nodes` field as the source decoding
accepts it: an array each of whose elements decodes (is an object with
a non-null `data`). -/
def nodesArrayWellFormed (v : JVal) : Prop :=
  ∃ xs, v = .arr xs ∧ ∀ x ∈ xs, ∃ r, decodeNodeJs x = .ok r

/-- Well-formedness of the `edges` field: an array each of whose
elements decodes (is not null). -/
def edgesArrayWellFormed (v : JVal) : Prop :=
  ∃ xs, v = .arr xs ∧ ∀ x ∈ xs, ∃ r, decodeEdgeJs x = .ok r

/-- C5: `importState` returns true exactly when the document parsed and
its `nodes` and `edges` fields are present (property access does not
throw) and are well-formed sequences; in every failing case — invalid
JSON, absent or non-array or element-wise malformed fields — it returns
false and the current nodes, edges and viewport are left exactly as
they were (no partial restore is committed). -/
theorem c5_import_failure (cur : List RestoredNode × List RestoredEdge × JVal)
    (parsed : Option JVal) :
    ((importIntoState cur parsed).2 = true ↔
      ∃ state, parsed = some state ∧
        (∃ ns, jsGet state "nodes" = .ok ns ∧ nodesArrayWellFormed ns) ∧
        (∃ es, jsGet state "edges" = .ok es ∧ edgesArrayWellFormed es)) ∧
    ((importIntoState cur parsed).2 = false →
      (importIntoState cur parsed).1 = cur) := by
  constructor
  · constructor
    · intro ht
      cases him : importState parsed with
      | failure => simp [importIntoState, him] at ht
      | success a b c =>
        cases parsed with
        | none => rw [importState] at him; cases him
        | some state =>
          rw [importState] at him
          refine ⟨state, rfl, ?_⟩
          split at him
          · cases him
          · rename_i ns hns
            split at him
            · cases him
            · rename_i es hes
              split at him
              · split at him
                · rename_i nlist
                  split at him
                  · cases him
                  · rename_i rns hmt
                    split at him
                    · rename_i elist
                      split at him
                      · cases him
                      · rename_i res2 hmt2
                        exact ⟨⟨_, hns, _, rfl, mapThrow_ok_mem hmt⟩,
                          ⟨_, hes, _, rfl, mapThrow_ok_mem hmt2⟩⟩
                    · cases him
                · cases him
              · cases him
    · rintro ⟨state, rfl, ⟨ns, hns, xs, rfl, hxs⟩, ⟨es, hes, ys, rfl, hys⟩⟩
      obtain ⟨rns, hrns⟩ := mapThrow_ok_of_forall hxs
      obtain ⟨res2, hres⟩ := mapThrow_ok_of_forall hys
      obtain ⟨vp, hvp⟩ := jsGet_ok_of_ok (j := "viewport") hns
      have him : importState (some state) =
          .success rns res2 (if truthy vp then some vp else none) := by
        simp [importState, hns, hes, hrns, hres, hvp, truthy]
      simp [importIntoState, him]
  · intro hf
    cases him : importState parsed with
    | failure => simp [importIntoState, him]
    | success a b c => simp [importIntoState, him] at hf

/-- Witness for C5: a document whose `edges` field is absent yields
`false` and leaves the current state untouched. -/
theorem c5_import_failure_witness :
    (importIntoState ([], [], .obj []) (some (.obj [("nodes", .arr [])]))).1 =
      (([], [], .obj []) : List RestoredNode × List RestoredEdge × JVal) :=
  (c5_import_failure ([], [], .obj []) (some (.obj [("nodes", .arr [])]))).2 rfl

/-! ## C6 / C7: keyboard navigation -/

theorem any_id_of_mem {nodes : List ChatNode} {x : ChatNode} (h : x ∈ nodes) :
    nodes.any (fun n => n.id == x.id) = true :=
  List.any_eq_true.mpr ⟨x, h, by simp⟩

theorem any_id_of_find? {nodes : List ChatNode} {f : String} {c : ChatNode}
    (hc : nodes.find? (fun n => n.id == f) = some c) :
    nodes.any (fun n => n.id == f) = true :=
  List.any_eq_true.mpr ⟨c, List.mem_of_find?_eq_some hc,
    by simpa using List.find?_some hc⟩

/-- Unfolding of `navStep` when the focused id exists in the snapshot:
the handler interprets the key from it and either focuses an existing
target or leaves the focus as it was. -/
theorem navStep_some_eq (key : NavKey) (n0 : ChatNode) (rest : List ChatNode)
    (edges : List GraphEdge) (f : String)
    (hf : (n0 :: rest).any (fun n => n.id == f) = true) :
    navStep key (n0 :: rest) edges (some f) =
      match navNext key (n0 :: rest) edges f with
      | some t => if (n0 :: rest).any (fun n => n.id == t) then some t else some f
      | none => some f := by
  cases hnn : navNext key (n0 :: rest) edges f with
  | none => simp [navStep, hf, hnn]
  | some t => simp [navStep, hf, hnn]

theorem mem_childNodesOf {nodes : List ChatNode} {edges : List GraphEdge}
    {p : String} {x : ChatNode} (h : x ∈ childNodesOf nodes edges p) :
    x ∈ nodes := by
  unfold childNodesOf at h
  rw [List.reduceOption_mem_iff] at h
  obtain ⟨e, _, hfe⟩ := List.mem_map.mp h
  exact List.mem_of_find?_eq_some hfe

theorem childNodesOf_entry {nodes : List ChatNode} {edges : List GraphEdge}
    {p : String} {x : ChatNode} (h : x ∈ childNodesOf nodes edges p) :
    ∃ e ∈ edges, e.source = p ∧
      nodes.find? (fun n => n.id == e.target) = some x ∧ x.id = e.target := by
  unfold childNodesOf at h
  rw [List.reduceOption_mem_iff] at h
  obtain ⟨e, he, hfe⟩ := List.mem_map.mp h
  rw [List.mem_filter] at he
  exact ⟨e, he.1, by simpa using he.2, hfe, by simpa using List.find?_some hfe⟩

/-- An entry of a child list whose id is the focused id is the focused
node itself (entries are results of the same node lookup). -/
theorem childNodesOf_id_unique {nodes : List ChatNode} {edges : List GraphEdge}
    {p f : String} {c x : ChatNode}
    (hc : nodes.find? (fun n => n.id == f) = some c)
    (hx : x ∈ childNodesOf nodes edges p) (hid : x.id = f) : x = c := by
  obtain ⟨e, _, _, hfind, hxt⟩ := childNodesOf_entry hx
  have het : e.target = f := by rw [← hxt, hid]
  rw [het, hc] at hfind
  exact (Option.some.inj hfind).symm

/-- The focused node is among the children of the source of its own
parent edge. -/
theorem focused_mem_siblings {nodes : List ChatNode} {edges : List GraphEdge}
    {f : String} {c : ChatNode} {pe : GraphEdge}
    (hc : nodes.find? (fun n => n.id == f) = some c)
    (hpe : edges.find? (fun e => e.target == f) = some pe) :
    c ∈ childNodesOf nodes edges pe.source := by
  unfold childNodesOf
  rw [List.reduceOption_mem_iff]
  refine List.mem_map.mpr ⟨pe, ?_, ?_⟩
  · rw [List.mem_filter]
    exact ⟨List.mem_of_find?_eq_some hpe, by simp⟩
  · have ht : pe.target = f := by simpa using List.find?_some hpe
    rw [ht]
    exact hc

/-- In an ascending-timestamp sorted list where the timestamp of the
focused node is strictly below that of every other id, the first index matching
the focused id is 0. -/
theorem sorted_findIdx_zero {l : List ChatNode} {c : ChatNode} {f : String}
    (hsort : List.Sorted tsLe l) (hcid : c.id = f) (hcmem : c ∈ l)
    (hother : ∀ x ∈ l, x.id ≠ f → c.data.timestamp < x.data.timestamp) :
    l.findIdx? (fun n => n.id == f) = some 0 := by
  cases l with
  | nil => cases hcmem
  | cons h t =>
    by_cases hh : h.id = f
    · simp [List.findIdx?_cons, hh]
    · have hlt : c.data.timestamp < h.data.timestamp := hother h (by simp) hh
      have hct : c ∈ t := by
        rcases List.mem_cons.mp hcmem with rfl | h2
        · exact absurd hcid hh
        · exact h2
      have hle : tsLe h c := (List.sorted_cons.mp hsort).1 c hct
      unfold tsLe at hle
      omega

/-- In an ascending-timestamp sorted list where every entry with the
focused id equals the focused node and every other entry has a strictly
smaller timestamp, the entry after the first match (when it exists)
also carries the focused id. -/
theorem sorted_next_id :
    ∀ (l : List ChatNode) (c : ChatNode) (f : String),
      List.Sorted tsLe l → c.id = f →
      (∀ x ∈ l, x.id = f → x = c) →
      (∀ x ∈ l, x.id ≠ f → x.data.timestamp < c.data.timestamp) →
      ∀ (i : Nat), l.findIdx? (fun n => n.id == f) = some i →
        ∀ (h2 : i + 1 < l.length), (l.get ⟨i + 1, h2⟩).id = f := by
  intro l
  induction l with
  | nil =>
    intro c f _ _ _ _ i hfi
    rw [List.findIdx?_nil] at hfi
    cases hfi
  | cons h t ih =>
    intro c f hsort hcid hall hother i hfi h2
    rw [List.findIdx?_cons] at hfi
    by_cases hh : (h.id == f) = true
    · rw [if_pos hh] at hfi
      obtain rfl : (0 : Nat) = i := Option.some.inj hfi
      cases t with
      | nil => simp at h2
      | cons t0 tt =>
        have hhc : h = c := hall h (by simp) (by simpa using hh)
        have hle : tsLe h t0 := (List.sorted_cons.mp hsort).1 t0 (by simp)
        by_cases ht0 : t0.id = f
        · simpa using ht0
        · have hlt : t0.data.timestamp < c.data.timestamp :=
            hother t0 (by simp) ht0
          rw [hhc] at hle
          unfold tsLe at hle
          omega
    · rw [if_neg hh, List.findIdx?_succ] at hfi
      obtain ⟨j, hj, rfl⟩ : ∃ j, t.findIdx? (fun n => n.id == f) = some j ∧
          j + 1 = i := by
        cases hjj : t.findIdx? (fun n => n.id == f) with
        | none => rw [hjj] at hfi; cases hfi
        | some j =>
          rw [hjj] at hfi
          exact ⟨j, rfl, Option.some.inj hfi⟩
      rw [List.get_cons_succ]
      exact ih c f (List.sorted_cons.mp hsort).2 hcid
        (fun x hx => hall x (by simp [hx]))
        (fun x hx => hother x (by simp [hx])) j hj
        (by simpa using Nat.lt_of_succ_lt_succ h2)

/-- C6: with an existing focused node, the to-child intent (ArrowDown)
moves focus to a child of maximal timestamp whenever there are two or
more children and leaves the focus unchanged when there are none; and
the to-prev-sibling intent (ArrowLeft) when the focused node has
timestamp strictly below every other sibling (it is the first
sibling in timestamp order), and the to-next-sibling intent
(ArrowRight) when it is strictly above (it is the last), leave the
focus unchanged: there is no wrap-around. -/
theorem c6_navigation (nodes : List ChatNode) (edges : List GraphEdge)
    (f : String) (c : ChatNode)
    (hc : nodes.find? (fun n => n.id == f) = some c) :
    (2 ≤ (childNodesOf nodes edges f).length →
      ∃ m, m ∈ childNodesOf nodes edges f ∧
        (∀ s ∈ childNodesOf nodes edges f,
          s.data.timestamp ≤ m.data.timestamp) ∧
        navStep .down nodes edges (some f) = some m.id) ∧
    (childNodesOf nodes edges f = [] →
      navStep .down nodes edges (some f) = some f) ∧
    (∀ pe, edges.find? (fun e => e.target == f) = some pe →
      (∀ s ∈ childNodesOf nodes edges pe.source, s.id ≠ f →
        c.data.timestamp < s.data.timestamp) →
      navStep .left nodes edges (some f) = some f) ∧
    (∀ pe, edges.find? (fun e => e.target == f) = some pe →
      (∀ s ∈ childNodesOf nodes edges pe.source, s.id ≠ f →
        s.data.timestamp < c.data.timestamp) →
      navStep .right nodes edges (some f) = some f) := by
  cases nodes with
  | nil => cases hc
  | cons n0 rest =>
  have hf : (n0 :: rest).any (fun n => n.id == f) = true := any_id_of_find? hc
  have hcid : c.id = f := by simpa using List.find?_some hc
  refine ⟨?_, ?_, ?_, ?_⟩
  · intro hlen
    have hperm := List.perm_insertionSort tsGe (childNodesOf (n0 :: rest) edges f)
    cases hsceq : List.insertionSort tsGe (childNodesOf (n0 :: rest) edges f) with
    | nil =>
      rw [hsceq] at hperm
      rw [← hperm.length_eq] at hlen
      simp at hlen
    | cons m tail =>
      rw [hsceq] at hperm
      have hmmem : m ∈ childNodesOf (n0 :: rest) edges f :=
        hperm.subset (by simp)
      have hsorted : List.Sorted tsGe (m :: tail) := by
        have h := List.sorted_insertionSort tsGe (childNodesOf (n0 :: rest) edges f)
        rwa [hsceq] at h
      have hmax : ∀ s ∈ childNodesOf (n0 :: rest) edges f,
          s.data.timestamp ≤ m.data.timestamp := by
        intro s hs
        rcases List.mem_cons.mp (hperm.mem_iff.mpr hs) with rfl | hs2
        · exact Nat.le_refl _
        · exact (List.sorted_cons.mp hsorted).1 s hs2
      have hnn : navNext .down (n0 :: rest) edges f = some m.id := by
        simp [navNext, hsceq]
      rw [navStep_some_eq .down n0 rest edges f hf, hnn]
      have hanym : (n0 :: rest).any (fun n => n.id == m.id) = true :=
        any_id_of_mem (mem_childNodesOf hmmem)
      simp [hanym]
      exact ⟨m, hmmem, hmax, rfl⟩
  · intro hnil
    have hnn : navNext .down (n0 :: rest) edges f = none := by
      simp [navNext, hnil]
    rw [navStep_some_eq .down n0 rest edges f hf, hnn]
  · intro pe hpe hmin
    have hcmem : c ∈ childNodesOf (n0 :: rest) edges pe.source :=
      focused_mem_siblings hc hpe
    have hperm := List.perm_insertionSort tsLe
      (childNodesOf (n0 :: rest) edges pe.source)
    have hidx : (List.insertionSort tsLe
        (childNodesOf (n0 :: rest) edges pe.source)).findIdx?
          (fun n => n.id == f) = some 0 :=
      sorted_findIdx_zero (List.sorted_insertionSort tsLe _) hcid
        (hperm.mem_iff.mpr hcmem)
        (fun x hx hne => hmin x (hperm.subset hx) hne)
    have hnn : navNext .left (n0 :: rest) edges f = none := by
      simp [navNext, hpe, hidx]
    rw [navStep_some_eq .left n0 rest edges f hf, hnn]
  · intro pe hpe hmax
    have hcmem : c ∈ childNodesOf (n0 :: rest) edges pe.source :=
      focused_mem_siblings hc hpe
    have hperm := List.perm_insertionSort tsLe
      (childNodesOf (n0 :: rest) edges pe.source)
    have hcs : c ∈ List.insertionSort tsLe
        (childNodesOf (n0 :: rest) edges pe.source) := hperm.mem_iff.mpr hcmem
    have hsome : ((List.insertionSort tsLe
        (childNodesOf (n0 :: rest) edges pe.source)).findIdx?
          (fun n => n.id == f)).isSome = true := by
      rw [List.findIdx?_isSome]
      exact List.any_eq_true.mpr ⟨c, hcs, by simp [hcid]⟩
    obtain ⟨i, hidx⟩ := Option.isSome_iff_exists.mp hsome
    by_cases hbound : i + 1 < (List.insertionSort tsLe
        (childNodesOf (n0 :: rest) edges pe.source)).length
    · have hnext : ((List.insertionSort tsLe
          (childNodesOf (n0 :: rest) edges pe.source)).get
            ⟨i + 1, hbound⟩).id = f :=
        sorted_next_id _ c f (List.sorted_insertionSort tsLe _) hcid
          (fun x hx => childNodesOf_id_unique hc (hperm.subset hx))
          (fun x hx => hmax x (hperm.subset hx)) i hidx hbound
      have hnn : navNext .right (n0 :: rest) edges f = some f := by
        simp only [navNext, hpe, hidx]
        rw [if_pos hbound, List.get?_eq_get hbound]
        simp only [Option.map_some']
        rw [hnext]
      rw [navStep_some_eq .right n0 rest edges f hf, hnn]
      simp [hf]
    · have hnn : navNext .right (n0 :: rest) edges f = none := by
        simp only [navNext, hpe, hidx]
        rw [if_neg hbound]
      rw [navStep_some_eq .right n0 rest edges f hf, hnn]

/-- A concrete snapshot for the navigation claims: the root with two
children of timestamps 1 and 2. -/
def c6a : ChatNode :=
  { id := "a", ntype := "message", position := { x := 0, y := 0 },
    data := { role := "user", content := "A", timestamp := 1,
              isInput := none, label := none } }

def c6b : ChatNode :=
  { id := "b", ntype := "message", position := { x := 1, y := 1 },
    data := { role := "user", content := "B", timestamp := 2,
              isInput := none, label := none } }

def c6n : List ChatNode := [initialNode 0, c6a, c6b]

def c6e : List GraphEdge :=
  [{ id := "e1", source := "root", target := "a", etype := some "smoothstep",
     markerEnd := some "arrowclosed" },
   { id := "e2", source := "root", target := "b", etype := some "smoothstep",
     markerEnd := some "arrowclosed" }]

/-- Witness for C6: from the focused root with two children, ArrowDown
moves to the child with the greater timestamp. -/
theorem c6_navigation_witness :
    navStep .down c6n c6e (some "root") = some "b" := by
  obtain ⟨m, hm, hmax, hstep⟩ :=
    (c6_navigation c6n c6e "root" (initialNode 0) (by decide)).1 (by decide)
  have hm2 : m = c6a ∨ m = c6b := by
    have h : childNodesOf c6n c6e "root" = [c6a, c6b] := by decide
    rw [h] at hm
    simpa using hm
  rcases hm2 with rfl | rfl
  · exact absurd (hmax c6b (by decide)) (by decide)
  · exact hstep

/-- C7, counterexample: with no focused node, a Tab press on a
two-child snapshot focuses the node after the root in timestamp order,
not the root itself: the handler resolves the start to the root but
then applies the intent from it instead of treating the resolution as
a "no movement, just focus" result. -/
theorem c7_counterexample :
    navStep .tab c6n c6e none = some "a" ∧
    navStep .tab c6n c6e none ≠ some "root" := by
  decide

theorem rootDefault_mem (n0 : ChatNode) (rest : List ChatNode) :
    rootDefault n0 (n0 :: rest) ∈ n0 :: rest := by
  unfold rootDefault
  cases hfind : (n0 :: rest).find? (fun n => n.id == "root") with
  | none => simp
  | some r =>
    simp only [Option.getD_some]
    exact List.mem_of_find?_eq_some hfind

/-- C7, amended: when a directional intent fires with no focused node,
the handler resolves the start to the node with id "root" when one
exists and otherwise to the first node of the snapshot array (not the
smallest-timestamp node); it then applies the intent from that start:
when the intent yields an existing target the new focus is that target,
and only when the intent yields no movement is the resolved start
itself focused.  When the focused id is stale (no longer exists) the
start is resolved the same way, but a no-movement intent leaves the
stale focus in place rather than focusing the root. -/
theorem c7_unfocused_resolution (key : NavKey) (n0 : ChatNode)
    (rest : List ChatNode) (edges : List GraphEdge) :
    (rootDefault n0 (n0 :: rest) ∈ n0 :: rest ∧
      ((∃ n ∈ n0 :: rest, n.id = "root") →
        (rootDefault n0 (n0 :: rest)).id = "root") ∧
      ((∀ n ∈ n0 :: rest, n.id ≠ "root") →
        rootDefault n0 (n0 :: rest) = n0)) ∧
    (∀ t, navNext key (n0 :: rest) edges (rootDefault n0 (n0 :: rest)).id = some t →
      (n0 :: rest).any (fun n => n.id == t) = true →
      navStep key (n0 :: rest) edges none = some t) ∧
    (navNext key (n0 :: rest) edges (rootDefault n0 (n0 :: rest)).id = none →
      navStep key (n0 :: rest) edges none =
        some (rootDefault n0 (n0 :: rest)).id) ∧
    (∀ g : String, (∀ n ∈ n0 :: rest, n.id ≠ g) →
      navNext key (n0 :: rest) edges (rootDefault n0 (n0 :: rest)).id = none →
      navStep key (n0 :: rest) edges (some g) = some g) := by
  refine ⟨⟨rootDefault_mem n0 rest, ?_, ?_⟩, ?_, ?_, ?_⟩
  · rintro ⟨n, hn, hid⟩
    unfold rootDefault
    cases hfind : (n0 :: rest).find? (fun n => n.id == "root") with
    | none =>
      rw [List.find?_eq_none] at hfind
      exact absurd (by simpa using hid) (hfind n hn)
    | some r =>
      simp only [Option.getD_some]
      simpa using List.find?_some hfind
  · intro hall
    unfold rootDefault
    cases hfind : (n0 :: rest).find? (fun n => n.id == "root") with
    | none => simp
    | some r =>
      exact absurd (by simpa using List.find?_some hfind)
        (hall r (List.mem_of_find?_eq_some hfind))
  · intro t hnn hany
    simp [navStep, hnn, hany]
  · intro hnn
    simp [navStep, hnn, any_id_of_mem (rootDefault_mem n0 rest)]
  · intro g hall hnn
    have hany : (n0 :: rest).any (fun n => n.id == g) = false := by
      rw [List.any_eq_false]
      intro x hx
      simpa using hall x hx
    simp [navStep, hany, hnn]

/-- Witness for C7: with no focus, ArrowUp from the resolved root is a
no-movement intent and the root itself gets focused. -/
theorem c7_unfocused_resolution_witness :
    navStep .up c6n c6e none = some "root" :=
  ((c7_unfocused_resolution .up (initialNode 0) [c6a, c6b] c6e).2.2.1
    (by decide)).trans (by decide)

end LlmGraph
